import Mathlib

/-!
# AShare-Sentinel — verification of the signal pipeline and paper-trading ledger

Shallow embedding of the core of the AShare-Sentinel repository:

* `src/portfolio/manager.py` — `PortfolioManager.buy_stock`, `update_prices`,
  `_create_default_account` (the paper-trading ledger);
* `src/config.py` — `PortfolioConfig`;
* `auto_analysis.py` — `check_streak`, `AutoAnalysisEngine._deduplicate_candidates`
  and the truncation in `run_analysis`, plus the persistence of `ai_score` in
  `_ai_analysis_pipeline`;
* `ai_agent.py` — the response handling of `AIStockAnalyzer.analyze_stock`;
* `src/strategies/strategies.py` — `StrategyScanner.scan_volume_breakout`.

Python floats are embedded as rationals (`ℚ`), Python ints as `ℤ`, calendar
dates as integer day numbers.  The `int()` conversion of Python truncates
toward zero; it is embedded by `pyTrunc`.
-/

namespace Sentinel

/-! ## Configuration (`src/config.py`, class `PortfolioConfig`) -/

/-- Constant `PortfolioConfig.INITIAL_CASH = 1000000` (元). -/
def INITIAL_CASH : ℚ := 1000000

/-- Constant `PortfolioConfig.TRADE_AMOUNT_PER_POS = 50000` (元). -/
def TRADE_AMOUNT_PER_POS : ℚ := 50000

/-- The `int()` conversion of Python on a rational: truncation toward zero. -/
def pyTrunc (q : ℚ) : ℤ := if 0 ≤ q then ⌊q⌋ else ⌈q⌉

/-! ## Paper-trading ledger (`src/portfolio/manager.py`) -/

/-- One entry of the positions list of the account, as built by `buy_stock`. -/
structure Position where
  symbol : String
  name : String
  shares : ℤ
  avg_price : ℚ
  current_price : ℚ
  cost : ℚ
  market_value : ℚ
  profit_loss : ℚ
  profit_loss_pct : ℚ
  buy_date : String
  deriving Repr, DecidableEq

/-- One entry of the transactions log of the account, as built by `buy_stock`. -/
structure Transaction where
  ttype : String
  symbol : String
  name : String
  shares : ℤ
  price : ℚ
  amount : ℚ
  date : String
  deriving Repr, DecidableEq

/-- The account dictionary managed by `PortfolioManager`
(`cash`, `positions`, `transactions`). -/
structure Account where
  cash : ℚ
  positions : List Position
  transactions : List Transaction
  deriving Repr, DecidableEq

/-- Embeds `PortfolioManager._create_default_account` (timestamps omitted). -/
def createDefaultAccount : Account :=
  { cash := INITIAL_CASH, positions := [], transactions := [] }

/-- Result of `buy_stock`: the account afterwards, the `(bool, str)` return
value, and whether `_save` (persistence) ran. -/
structure BuyResult where
  account : Account
  success : Bool
  msg : String
  saved : Bool
  deriving Repr, DecidableEq

/-- Share count computed at `manager.py:144`:
`shares = int(target_amount / price / 100) * 100`. -/
def computeShares (price : ℚ) : ℤ :=
  pyTrunc (TRADE_AMOUNT_PER_POS / price / 100) * 100

/-- Embeds `PortfolioManager.buy_stock(symbol, name, price, date)`
(`manager.py:120-205`).  Checks, in order: already-held, zero-lot, cash;
on success debits cash, appends the position and the transaction, persists. -/
def buyStock (acct : Account) (symbol name : String) (price : ℚ)
    (date : String) : BuyResult :=
  if acct.positions.any (fun p => p.symbol == symbol) then
    { account := acct, success := false, msg := "已持仓", saved := false }
  else
    let shares := computeShares price
    if shares = 0 then
      { account := acct, success := false, msg := "资金不足", saved := false }
    else
      let cost : ℚ := (shares : ℚ) * price
      if acct.cash < cost then
        { account := acct, success := false, msg := "资金不足", saved := false }
      else
        let pos : Position :=
          { symbol := symbol, name := name, shares := shares,
            avg_price := price, current_price := price, cost := cost,
            market_value := cost, profit_loss := 0, profit_loss_pct := 0,
            buy_date := date }
        let txn : Transaction :=
          { ttype := "buy", symbol := symbol, name := name, shares := shares,
            price := price, amount := cost, date := date }
        { account :=
            { cash := acct.cash - cost,
              positions := acct.positions ++ [pos],
              transactions := acct.transactions ++ [txn] },
          success := true, msg := "买入成功", saved := true }

/-- Per-position body of `update_prices` (`manager.py:268-278`): if the symbol
is in the price map, refresh `current_price`, `market_value`, `profit_loss`
and `profit_loss_pct`; otherwise leave the position alone. -/
def updatePosition (priceMap : List (String × ℚ)) (p : Position) : Position :=
  match priceMap.lookup p.symbol with
  | none => p
  | some np =>
    let mv : ℚ := (p.shares : ℚ) * np
    let pl : ℚ := mv - p.cost
    { p with current_price := np, market_value := mv, profit_loss := pl,
             profit_loss_pct := if 0 < p.cost then pl / p.cost * 100 else 0 }

/-- Embeds `PortfolioManager.update_prices(price_dict)` (`manager.py:261-280`):
updates the valuation fields of every held position; `cash` and `transactions`
are untouched. -/
def updatePrices (acct : Account) (priceMap : List (String × ℚ)) : Account :=
  { acct with positions := acct.positions.map (updatePosition priceMap) }

/-! ## Candidate aggregation (`auto_analysis.py`) -/

/-- A candidate dictionary as built by `AutoAnalysisEngine._add_candidates`. -/
structure Candidate where
  symbol : String
  name : String
  price : ℚ
  change_pct : ℚ
  turnover : ℚ
  volume_ratio : ℚ
  strategy : String
  deriving Repr, DecidableEq

/-- Loop body of `_deduplicate_candidates` (`auto_analysis.py:282-291`),
with the `seen` set carried explicitly as the list of symbols added so far. -/
def dedupGo (seen : List String) : List Candidate → List Candidate
  | [] => []
  | c :: rest =>
    if c.symbol ∈ seen then dedupGo seen rest
    else c :: dedupGo (c.symbol :: seen) rest

/-- Embeds `AutoAnalysisEngine._deduplicate_candidates(candidates)`
(`auto_analysis.py:272-291`): keep the first occurrence of every symbol. -/
def deduplicateCandidates (cs : List Candidate) : List Candidate :=
  dedupGo [] cs

/-- Batch-size truncation in `run_analysis` (`auto_analysis.py:176-177`):
`if len(unique_candidates) > max_candidates: unique_candidates[:max_candidates]`. -/
def limitCandidates (maxCandidates : ℕ) (cs : List Candidate) : List Candidate :=
  if maxCandidates < cs.length then cs.take maxCandidates else cs

/-! ## Scoring gateway (`ai_agent.py`, `AIStockAnalyzer.analyze_stock`) -/

/-- The `{score, reason, suggestion}` dictionary returned by `analyze_stock`. -/
structure AnalysisResult where
  score : ℤ
  reason : String
  suggestion : String
  deriving Repr, DecidableEq

/-- Outcome of the scoring-service call as seen by the response-handling code
of `analyze_stock`.  `failure` covers everything the `except` clauses catch:
the call raising, content that is not valid JSON, and a `score` field that
`int()` cannot convert.  `parsed` is a decoded JSON object whose three
expected fields may each be missing (`none`). -/
inductive ServiceResponse where
  | failure : ServiceResponse
  | parsed (score : Option ℤ) (reason : Option String)
      (suggestion : Option String) : ServiceResponse
  deriving Repr, DecidableEq

/-- Embeds `AIStockAnalyzer._default_result` (`ai_agent.py:270-276`). -/
def defaultResult : AnalysisResult :=
  { score := 0, reason := "AI分析暂时不可用，请稍后重试", suggestion := "观望" }

/-- Score clamp at `ai_agent.py:243`: `max(0, min(100, int(score)))`. -/
def clampScore (s : ℤ) : ℤ := max 0 (min 100 s)

/-- Suggestion normalization at `ai_agent.py:246-251`: members of the valid
set pass through; `"观察"` (and, vacuously, `"买入"`) is special-cased; every
other string becomes `"观望"`. -/
def normalizeSuggestion (s : String) : String :=
  if s = "强力买入" ∨ s = "买入" ∨ s = "观望" ∨ s = "放弃" then s
  else if s = "买入" ∨ s = "观察" then
    (if s = "买入" then "买入" else "观望")
  else "观望"

/-- Score-driven adjustment at `ai_agent.py:253-257`. -/
def adjustSuggestion (score : ℤ) (s : String) : String :=
  if 90 ≤ score ∧ s = "买入" then "强力买入"
  else if score < 60 ∧ (s = "强力买入" ∨ s = "买入") then "观望"
  else s

/-- Response handling of `AIStockAnalyzer.analyze_stock`
(`ai_agent.py:216-268`): on any failure or missing field the fixed default
result; otherwise clamp the score, normalize the suggestion, then adjust it
against the clamped score. -/
def analyzeStock (resp : ServiceResponse) : AnalysisResult :=
  match resp with
  | .failure => defaultResult
  | .parsed score? reason? suggestion? =>
    match score?, reason?, suggestion? with
    | some sc, some reason, some sugg =>
      let score := clampScore sc
      let sugg1 := normalizeSuggestion sugg
      { score := score, reason := reason,
        suggestion := adjustSuggestion score sugg1 }
    | _, _, _ => defaultResult

/-- The `ai_score` value written to the `stock_analysis` table by
`_ai_analysis_pipeline` (`auto_analysis.py:350,391`):
the clamped score when it is positive and SQL `NULL` otherwise. -/
def persistedAiScore (resp : ServiceResponse) : Option ℤ :=
  let r := analyzeStock resp
  if 0 < r.score then some r.score else none

/-! ## Streak tracking (`auto_analysis.py`, `check_streak`) -/

/-- A row of the `stock_analysis` table, restricted to the columns
`check_streak` reads.  `created_day` is `DATE(created_at)` as an integer day
number; `ai_score` is nullable (a `NULL` score never satisfies
`ai_score >= threshold` in SQL). -/
structure StockAnalysisRow where
  symbol : String
  ai_score : Option ℤ
  created_day : ℤ
  deriving Repr, DecidableEq

/-- The `WHERE` clause of the `check_streak` query (`auto_analysis.py:56-75`),
identical for the SQLite and PostgreSQL variants: matching symbol, non-null
score at least the threshold, and `today - days ≤ DATE(created_at) < today`. -/
def rowQualifies (symbol : String) (threshold today days : ℤ)
    (r : StockAnalysisRow) : Bool :=
  r.symbol == symbol
    && (match r.ai_score with
        | some s => threshold ≤ s
        | none => false)
    && today - days ≤ r.created_day
    && r.created_day < today

/-- Embeds `check_streak(symbol, days, score_threshold)` (`auto_analysis.py:38-84`):
`COUNT(DISTINCT DATE(created_at))` over the qualifying rows of the table. -/
def checkStreak (rows : List StockAnalysisRow) (symbol : String)
    (threshold today days : ℤ) : ℕ :=
  (((rows.filter (rowQualifies symbol threshold today days)).map
      (·.created_day)).dedup).length

/-- Reading of the spec for the streak count: the number of calendar dates in
the trailing window `[today - days, today)` on which the symbol has at least
one stored record with score ≥ threshold. -/
def streakSpec (rows : List StockAnalysisRow) (symbol : String)
    (threshold today days : ℤ) : ℕ :=
  ((Finset.Ico (today - days) today).filter (fun d =>
    rows.any (fun r =>
      r.symbol == symbol
        && (match r.ai_score with
            | some s => threshold ≤ s
            | none => false)
        && r.created_day == d))).card

/-! ## Strategy A scan (`src/strategies/strategies.py`, `scan_volume_breakout`) -/

/-- A row of the snapshot DataFrame, restricted to the columns
`scan_volume_breakout` reads. -/
structure MarketRow where
  symbol : String
  name : String
  price : ℚ
  change_pct : ℚ
  turnover : ℚ
  volume_ratio : ℚ
  circ_mv : ℚ
  deriving Repr, DecidableEq

/-- The boolean `mask` built at `strategies.py:152-161`. -/
def breakoutMask (r : MarketRow) : Bool :=
  decide (5 ≤ r.change_pct) && decide (r.change_pct ≤ 8)
    && decide (7 ≤ r.turnover) && decide (r.turnover ≤ 15)
    && decide ((10 * 10 ^ 8 : ℚ) ≤ r.circ_mv)
    && decide (r.circ_mv ≤ (200 * 10 ^ 8 : ℚ))
    && decide (5 ≤ r.price) && decide (r.price ≤ 2000)

/-- The descending-turnover ordering used by
`sort_values` on the turnover column with `ascending=False`. -/
def turnoverGE (a b : MarketRow) : Prop := b.turnover ≤ a.turnover

instance : DecidableRel turnoverGE := fun a b =>
  inferInstanceAs (Decidable (b.turnover ≤ a.turnover))

instance : IsTotal MarketRow turnoverGE :=
  ⟨fun a b => le_total b.turnover a.turnover⟩

instance : IsTrans MarketRow turnoverGE :=
  ⟨fun _ _ _ hab hbc => le_trans hbc hab⟩

/-- Embeds `StrategyScanner.scan_volume_breakout(limit)` (`strategies.py:119-190`):
filter by the mask, sort by turnover descending, and keep the head of the
sorted list when it is longer than `limit`. -/
def scanVolumeBreakout (df : List MarketRow) (limit : ℕ) : List MarketRow :=
  let result := List.insertionSort turnoverGE (df.filter breakoutMask)
  if limit < result.length then result.take limit else result

/-! ## Concrete sample data used by the witness theorems -/

/-- A held position, used to exercise the duplicate-symbol risk gate. -/
def samplePosition : Position :=
  { symbol := "600519", name := "贵州茅台", shares := 100, avg_price := 100,
    current_price := 100, cost := 10000, market_value := 10000,
    profit_loss := 0, profit_loss_pct := 0, buy_date := "2026-01-12" }

/-- An account that already holds `samplePosition`. -/
def sampleAccount : Account :=
  { cash := 990000, positions := [samplePosition], transactions := [] }

/-- A snapshot row matching the breakout filter (change 6%, turnover 10%,
market value 50e8, price 20 — the end-to-end scenario of the spec). -/
def sampleRow : MarketRow :=
  { symbol := "000001", name := "平安银行", price := 20, change_pct := 6,
    turnover := 10, volume_ratio := 2, circ_mv := 50 * 10 ^ 8 }

/-- A candidate produced by strategy A. -/
def candA : Candidate :=
  { symbol := "000001", name := "平安银行", price := 20, change_pct := 6,
    turnover := 10, volume_ratio := 2, strategy := "强势中军" }

/-- The same instrument as `candA`, re-emitted by strategy B. -/
def candB : Candidate :=
  { symbol := "000001", name := "平安银行", price := 20, change_pct := 6,
    turnover := 10, volume_ratio := 2, strategy := "冲击涨停" }

/-- A candidate for a second instrument. -/
def candC : Candidate :=
  { symbol := "300059", name := "东方财富", price := 28, change_pct := 8,
    turnover := 12, volume_ratio := 3, strategy := "冲击涨停" }

/-! ## General lemmas about the ledger -/

/-- For a positive price the truncation in `computeShares` is a floor. -/
theorem computeShares_pos_eq (price : ℚ) (hp : 0 < price) :
    computeShares price = ⌊TRADE_AMOUNT_PER_POS / price / 100⌋ * 100 := by
  have h0 : (0:ℚ) ≤ TRADE_AMOUNT_PER_POS / price / 100 := by
    have : (0:ℚ) < TRADE_AMOUNT_PER_POS / price / 100 := by
      apply div_pos (div_pos (by norm_num [TRADE_AMOUNT_PER_POS]) hp)
        (by norm_num)
    linarith
  simp [computeShares, pyTrunc, h0]

/-- The rounded-down lot cost never exceeds the per-position notional. -/
theorem shares_cost_le (price : ℚ) (hp : 0 < price) :
    (computeShares price : ℚ) * price ≤ TRADE_AMOUNT_PER_POS := by
  rw [computeShares_pos_eq price hp]
  set q : ℚ := TRADE_AMOUNT_PER_POS / price / 100 with hq
  have hfl : ((⌊q⌋ : ℚ)) ≤ q := Int.floor_le q
  have step : ((⌊q⌋ * 100 : ℤ) : ℚ) * price ≤ q * 100 * price := by
    push_cast
    nlinarith [hfl, hp]
  have heq : q * 100 * price = TRADE_AMOUNT_PER_POS := by
    rw [hq]
    field_simp
    ring
  linarith [step, heq.le, heq.ge]

/-! ## C1 — lot rounding in `buy_stock` -/

/-- C1: for every `buy_stock` call with a positive price that passes the
already-held check, the share count is
`floor(target_notional / price / 100) × 100` with target notional 50000 and
lot 100; hence it is a multiple of 100 and its cost never exceeds the
notional; a zero share count makes the buy fail without executing, and a
successful buy purchases exactly that share count. -/
theorem buyStock_lot_rounding (acct : Account) (symbol name date : String)
    (price : ℚ) (hp : 0 < price)
    (hheld : acct.positions.any (fun p => p.symbol == symbol) = false) :
    computeShares price = ⌊TRADE_AMOUNT_PER_POS / price / 100⌋ * 100
    ∧ computeShares price % 100 = 0
    ∧ (computeShares price : ℚ) * price ≤ TRADE_AMOUNT_PER_POS
    ∧ (computeShares price = 0 →
        (buyStock acct symbol name price date).success = false
        ∧ (buyStock acct symbol name price date).account = acct)
    ∧ ((buyStock acct symbol name price date).success = true →
        ∃ pos, (buyStock acct symbol name price date).account.positions
            = acct.positions ++ [pos] ∧ pos.shares = computeShares price) := by
  refine ⟨computeShares_pos_eq price hp, ?_, shares_cost_le price hp, ?_, ?_⟩
  · unfold computeShares
    exact Int.mul_emod_left _ _
  · intro hz
    simp [buyStock, hheld, hz]
  · intro hs
    unfold buyStock at hs ⊢
    simp only [hheld, Bool.false_eq_true, if_false] at hs ⊢
    split_ifs at hs ⊢ with h1 h2
    exact ⟨_, rfl, rfl⟩

/-- C1 witness: a fresh account, price 10.5 (shares 4700, multiple of 100,
cost within notional) and price 600 (zero lot, buy rejected). -/
theorem buyStock_lot_rounding_witness :
    0 < (21 / 2 : ℚ)
    ∧ createDefaultAccount.positions.any
        (fun p => p.symbol == "600519") = false
    ∧ computeShares (21 / 2) % 100 = 0
    ∧ (computeShares (21 / 2) : ℚ) * (21 / 2) ≤ TRADE_AMOUNT_PER_POS
    ∧ computeShares 600 = 0
    ∧ (buyStock createDefaultAccount "600519" "贵州茅台" 600
        "2026-01-13").success = false := by
  have h600 : computeShares 600 = 0 := by
    norm_num [computeShares, pyTrunc, TRADE_AMOUNT_PER_POS]
  refine ⟨by norm_num, rfl, ?_, ?_, h600, ?_⟩
  · exact (buyStock_lot_rounding createDefaultAccount "600519" "贵州茅台"
      "2026-01-13" (21 / 2) (by norm_num) rfl).2.1
  · exact (buyStock_lot_rounding createDefaultAccount "600519" "贵州茅台"
      "2026-01-13" (21 / 2) (by norm_num) rfl).2.2.1
  · exact ((buyStock_lot_rounding createDefaultAccount "600519" "贵州茅台"
      "2026-01-13" 600 (by norm_num) rfl).2.2.2.1 h600).1

/-! ## C2 — non-negative cash invariant -/

/-- C2: from any account with non-negative cash, `buy_stock` keeps cash
non-negative (it debits `shares × price` only after checking the balance,
and a successful buy debits exactly that cost), `update_prices` never
changes cash, and a newly created account starts with the configured
positive initial cash. -/
theorem cash_balance_nonneg (acct : Account) (symbol name date : String)
    (price : ℚ) (priceMap : List (String × ℚ)) (h : 0 ≤ acct.cash) :
    0 ≤ (buyStock acct symbol name price date).account.cash
    ∧ ((buyStock acct symbol name price date).success = true →
        (computeShares price : ℚ) * price ≤ acct.cash
        ∧ (buyStock acct symbol name price date).account.cash
            = acct.cash - (computeShares price : ℚ) * price)
    ∧ (updatePrices acct priceMap).cash = acct.cash
    ∧ createDefaultAccount.cash = INITIAL_CASH ∧ 0 < INITIAL_CASH := by
  refine ⟨?_, ?_, rfl, rfl, by norm_num [INITIAL_CASH]⟩
  · unfold buyStock
    dsimp only
    split_ifs with h1 h2 h3
    · exact h
    · exact h
    · exact h
    · dsimp only
      linarith [not_lt.mp h3]
  · intro hs
    unfold buyStock at hs ⊢
    dsimp only at hs ⊢
    split_ifs at hs ⊢ with h1 h2 h3
    exact ⟨not_lt.mp h3, rfl⟩

/-- C2 witness: the default account has non-negative cash, and it still does
after a buy at price 10.5. -/
theorem cash_balance_nonneg_witness :
    0 ≤ createDefaultAccount.cash
    ∧ 0 ≤ (buyStock createDefaultAccount "600000" "浦发银行" (21 / 2)
        "2026-01-13").account.cash := by
  refine ⟨by norm_num [createDefaultAccount, INITIAL_CASH], ?_⟩
  exact (cash_balance_nonneg createDefaultAccount "600000" "浦发银行"
    "2026-01-13" (21 / 2) []
    (by norm_num [createDefaultAccount, INITIAL_CASH])).1

/-! ## C3 — duplicate symbols are rejected without mutation -/

/-- C3: when the symbol is already held, `buy_stock` returns the fixed
failure result: success is `false`, the message is the already-held message,
the account (cash, positions, transaction log) is exactly the input account,
and no persistence write happens. -/
theorem duplicate_buy_rejected (acct : Account) (symbol name date : String)
    (price : ℚ) (h : ∃ p ∈ acct.positions, p.symbol = symbol) :
    buyStock acct symbol name price date
      = { account := acct, success := false, msg := "已持仓",
          saved := false } := by
  have hany : acct.positions.any (fun p => p.symbol == symbol) = true := by
    rw [List.any_eq_true]
    obtain ⟨p, hp, hps⟩ := h
    exact ⟨p, hp, by simpa using hps⟩
  simp [buyStock, hany]

/-- C3 witness: an account holding 600519 rejects a second buy of 600519
and is left untouched. -/
theorem duplicate_buy_rejected_witness :
    (∃ p ∈ sampleAccount.positions, p.symbol = "600519")
    ∧ buyStock sampleAccount "600519" "贵州茅台" 100 "2026-01-13"
      = { account := sampleAccount, success := false, msg := "已持仓",
          saved := false } := by
  refine ⟨⟨samplePosition, by decide, rfl⟩, ?_⟩
  exact duplicate_buy_rejected sampleAccount "600519" "贵州茅台" "2026-01-13"
    100 ⟨samplePosition, by decide, rfl⟩

/-! ## General lemmas about candidate de-duplication -/

/-- De-duplication only drops elements: the output is a sublist of the
input, so relative order is preserved. -/
theorem dedupGo_sublist : ∀ (cs : List Candidate) (seen : List String),
    (dedupGo seen cs).Sublist cs
  | [], _ => by simp [dedupGo]
  | c :: rest, seen => by
    rw [dedupGo]
    split_ifs with hs
    · exact (dedupGo_sublist rest seen).cons c
    · exact (dedupGo_sublist rest (c.symbol :: seen)).cons₂ c

/-- Every kept candidate has an unseen symbol and is the first element of
the input with its symbol. -/
theorem mem_dedupGo : ∀ (cs : List Candidate) (seen : List String)
    (c : Candidate), c ∈ dedupGo seen cs →
    c.symbol ∉ seen ∧ cs.find? (fun x => x.symbol == c.symbol) = some c
  | [], seen, c, h => by simp [dedupGo] at h
  | c' :: rest, seen, c, h => by
    by_cases hs : c'.symbol ∈ seen
    · rw [dedupGo, if_pos hs] at h
      obtain ⟨hns, hf⟩ := mem_dedupGo rest seen c h
      refine ⟨hns, ?_⟩
      rw [List.find?_cons_of_neg, hf]
      simp only [beq_iff_eq]
      intro heq
      exact hns (heq ▸ hs)
    · rw [dedupGo, if_neg hs] at h
      rcases List.mem_cons.mp h with rfl | h
      · refine ⟨hs, ?_⟩
        rw [List.find?_cons_of_pos]
        simp
      · obtain ⟨hns, hf⟩ := mem_dedupGo rest (c'.symbol :: seen) c h
        have h1 : c.symbol ∉ seen := fun hx => hns (List.mem_cons_of_mem _ hx)
        have h2 : c'.symbol ≠ c.symbol := by
          intro hx
          exact hns (hx ▸ List.mem_cons_self _ _)
        refine ⟨h1, ?_⟩
        rw [List.find?_cons_of_neg, hf]
        simp [h2]

/-- Every unseen symbol occurring in the input also occurs in the output. -/
theorem dedupGo_covers : ∀ (cs : List Candidate) (seen : List String)
    (s : String), s ∉ seen → (∃ c ∈ cs, c.symbol = s) →
    ∃ c ∈ dedupGo seen cs, c.symbol = s
  | [], _, _, _, h => by simp at h
  | c' :: rest, seen, s, hns, h => by
    by_cases hs : c'.symbol ∈ seen
    · rw [dedupGo, if_pos hs]
      obtain ⟨c, hc, hcs⟩ := h
      rcases List.mem_cons.mp hc with rfl | hc
      · exact absurd (hcs ▸ hs) hns
      · exact dedupGo_covers rest seen s hns ⟨c, hc, hcs⟩
    · rw [dedupGo, if_neg hs]
      obtain ⟨c, hc, hcs⟩ := h
      rcases List.mem_cons.mp hc with rfl | hc
      · exact ⟨c, List.mem_cons_self _ _, hcs⟩
      · by_cases hcc : c'.symbol = s
        · exact ⟨c', List.mem_cons_self _ _, hcc⟩
        · obtain ⟨d, hd, hds⟩ :=
            dedupGo_covers rest (c'.symbol :: seen) s
              (by
                simp only [List.mem_cons]
                push_neg
                exact ⟨fun h => hcc h.symm, hns⟩) ⟨c, hc, hcs⟩
          exact ⟨d, List.mem_cons_of_mem _ hd, hds⟩

/-- The symbols of the output are pairwise distinct. -/
theorem dedupGo_pairwise : ∀ (cs : List Candidate) (seen : List String),
    (dedupGo seen cs).Pairwise (fun a b => a.symbol ≠ b.symbol)
  | [], _ => by simp [dedupGo]
  | c' :: rest, seen => by
    rw [dedupGo]
    split_ifs with hs
    · exact dedupGo_pairwise rest seen
    · refine List.Pairwise.cons ?_ (dedupGo_pairwise rest (c'.symbol :: seen))
      intro b hb
      have := (mem_dedupGo rest (c'.symbol :: seen) b hb).1
      intro heq
      exact this (heq ▸ List.mem_cons_self _ _)

/-- A list whose symbols are pairwise distinct and disjoint from the seen
set is left unchanged. -/
theorem dedupGo_eq_self : ∀ (cs : List Candidate) (seen : List String),
    (∀ c ∈ cs, c.symbol ∉ seen) →
    cs.Pairwise (fun a b => a.symbol ≠ b.symbol) →
    dedupGo seen cs = cs
  | [], _, _, _ => rfl
  | c' :: rest, seen, hseen, hpw => by
    rw [dedupGo, if_neg (hseen c' (List.mem_cons_self _ _))]
    rw [List.pairwise_cons] at hpw
    congr 1
    refine dedupGo_eq_self rest (c'.symbol :: seen) ?_ hpw.2
    intro c hc
    simp only [List.mem_cons]
    push_neg
    exact ⟨fun h => (hpw.1 c hc) h.symm, hseen c (List.mem_cons_of_mem _ hc)⟩

/-! ## C4 — de-duplication keeps first occurrences, is idempotent, and the
unique list is truncated to the batch size -/

/-- C4: `_deduplicate_candidates` is idempotent (same list, same strategy
tags), returns an order-preserving sublist of its input whose symbols are
pairwise distinct, keeps for each symbol exactly the first matching input
candidate (hence its first-seen strategy attribution), covers every input
symbol, and the subsequent limit step truncates the unique list to at most
30 entries (it is exactly a 30-element prefix). -/
theorem dedup_first_seen_idempotent (cs : List Candidate) :
    deduplicateCandidates (deduplicateCandidates cs) = deduplicateCandidates cs
    ∧ (deduplicateCandidates cs).Sublist cs
    ∧ (∀ c ∈ deduplicateCandidates cs,
        cs.find? (fun x => x.symbol == c.symbol) = some c)
    ∧ (∀ c ∈ cs, ∃ c' ∈ deduplicateCandidates cs, c'.symbol = c.symbol)
    ∧ (deduplicateCandidates cs).Pairwise (fun a b => a.symbol ≠ b.symbol)
    ∧ limitCandidates 30 (deduplicateCandidates cs)
        = (deduplicateCandidates cs).take 30
    ∧ (limitCandidates 30 (deduplicateCandidates cs)).length ≤ 30 := by
  have hlim : ∀ (l : List Candidate), limitCandidates 30 l = l.take 30 := by
    intro l
    unfold limitCandidates
    split_ifs with h
    · rfl
    · exact (List.take_of_length_le (by omega)).symm
  refine ⟨?_, dedupGo_sublist cs [], ?_, ?_, dedupGo_pairwise cs [],
    hlim _, ?_⟩
  · exact dedupGo_eq_self _ []
      (fun c _ => List.not_mem_nil _) (dedupGo_pairwise cs [])
  · intro c hc
    exact (mem_dedupGo cs [] c hc).2
  · intro c hc
    exact dedupGo_covers cs [] c.symbol (List.not_mem_nil _) ⟨c, hc, rfl⟩
  · rw [hlim]
    exact (List.length_take_le _ _).trans (by omega)

/-- C4 witness: on `[candA, candB, candC]` (candA and candB share a symbol)
the kept candidate for symbol 000001 is candA — the first occurrence, with
the strategy tag of strategy A — and candB is still represented. -/
theorem dedup_first_seen_idempotent_witness :
    candA ∈ deduplicateCandidates [candA, candB, candC]
    ∧ [candA, candB, candC].find? (fun x => x.symbol == candA.symbol)
        = some candA
    ∧ candB ∈ [candA, candB, candC]
    ∧ ∃ c' ∈ deduplicateCandidates [candA, candB, candC],
        c'.symbol = candB.symbol := by
  refine ⟨by decide, ?_, by decide, ?_⟩
  · exact (dedup_first_seen_idempotent [candA, candB, candC]).2.2.1 candA
      (by decide)
  · exact (dedup_first_seen_idempotent [candA, candB, candC]).2.2.2.1 candB
      (by decide)

/-! ## General lemmas about the scoring gateway -/

/-- The clamp lands in [0, 100]. -/
theorem clampScore_mem (sc : ℤ) : 0 ≤ clampScore sc ∧ clampScore sc ≤ 100 :=
  ⟨le_max_left 0 _, max_le (by norm_num) (min_le_left 100 sc)⟩

/-- Normalization always lands in the four-element suggestion set. -/
theorem normalizeSuggestion_mem (s : String) :
    normalizeSuggestion s = "强力买入" ∨ normalizeSuggestion s = "买入"
    ∨ normalizeSuggestion s = "观望" ∨ normalizeSuggestion s = "放弃" := by
  unfold normalizeSuggestion
  split_ifs <;> tauto

/-- The score-driven adjustment keeps the suggestion in the set. -/
theorem adjustSuggestion_mem (score : ℤ) (s : String)
    (hs : s = "强力买入" ∨ s = "买入" ∨ s = "观望" ∨ s = "放弃") :
    adjustSuggestion score s = "强力买入" ∨ adjustSuggestion score s = "买入"
    ∨ adjustSuggestion score s = "观望"
    ∨ adjustSuggestion score s = "放弃" := by
  unfold adjustSuggestion
  split_ifs <;> tauto

/-- The score of every `analyze_stock` result lies in [0, 100]. -/
theorem analyzeStock_score_mem (resp : ServiceResponse) :
    0 ≤ (analyzeStock resp).score ∧ (analyzeStock resp).score ≤ 100 := by
  rcases resp with _ | ⟨sc, reason, sugg⟩
  · exact ⟨le_refl 0, by norm_num [analyzeStock, defaultResult]⟩
  · rcases sc with _ | sc <;> rcases reason with _ | reason
      <;> rcases sugg with _ | sugg
      <;> simp [analyzeStock, defaultResult]
    exact clampScore_mem sc

/-! ## C5 — clamped score vs. the persisted `ai_score` -/

/-- C5 counterexample: for the externally returned score −5 (outside
[0,100]) the clamp yields 0 and the pipeline persists `NULL` (`none`), so
no score in [0, 100] is carried into the persisted record. -/
theorem persisted_score_counterexample :
    persistedAiScore (.parsed (some (-5)) (some "放量突破") (some "买入"))
      = none
    ∧ ¬∃ s, persistedAiScore (.parsed (some (-5)) (some "放量突破")
        (some "买入")) = some s ∧ 0 ≤ s ∧ s ≤ 100 := by
  refine ⟨by decide, ?_⟩
  rintro ⟨s, hs, _⟩
  rw [show persistedAiScore (.parsed (some (-5)) (some "放量突破")
      (some "买入")) = none by decide] at hs
  exact Option.noConfusion hs

/-- C5 amended: the gateway clamps every parsed score into [0, 100]; the
pipeline then persists that clamped score whenever it is positive — so any
`ai_score` actually carried into a record lies in [0, 100] — and persists
`NULL` exactly when the clamped score is 0 (every external value ≤ 0, and
every scoring failure). -/
theorem persisted_score_amended (resp : ServiceResponse) :
    (∀ s, persistedAiScore resp = some s → 0 ≤ s ∧ s ≤ 100)
    ∧ (persistedAiScore resp = none ↔ (analyzeStock resp).score = 0)
    ∧ (∀ sc reason sugg,
        (analyzeStock (.parsed (some sc) (some reason)
            (some sugg))).score = clampScore sc
        ∧ 0 ≤ clampScore sc ∧ clampScore sc ≤ 100) := by
  refine ⟨?_, ?_, ?_⟩
  · intro s hs
    unfold persistedAiScore at hs
    dsimp only at hs
    split_ifs at hs with h
    obtain rfl : (analyzeStock resp).score = s := by
      simpa using hs
    exact analyzeStock_score_mem resp
  · unfold persistedAiScore
    dsimp only
    have hb := analyzeStock_score_mem resp
    split_ifs with h
    · constructor
      · intro hx
        exact absurd hx (by simp)
      · omega
    · simp only [true_iff]
      omega
  · intro sc reason sugg
    exact ⟨rfl, clampScore_mem sc⟩

/-- C5 witness: external score 150 is clamped to 100 and persisted as 100,
which lies in [0, 100]. -/
theorem persisted_score_amended_witness :
    persistedAiScore (.parsed (some 150) (some "放量强势") (some "买入"))
      = some 100
    ∧ (0 ≤ (100 : ℤ) ∧ (100 : ℤ) ≤ 100) := by
  refine ⟨by decide, ?_⟩
  exact (persisted_score_amended
    (.parsed (some 150) (some "放量强势") (some "买入"))).1 100 (by decide)

/-! ## C8 — scoring failures return the fixed default result -/

/-- C8: when the scoring call raises, or its content does not parse as a
JSON object carrying all of score, reason and suggestion, `analyze_stock`
returns the fixed default result — score 0, the unavailable message, and
the neutral suggestion 观望.  `analyzeStock` is a total function, so no
exception propagates to the per-candidate loop. -/
theorem scoring_failure_default (resp : ServiceResponse)
    (h : resp = .failure
      ∨ ∃ sc reason sugg, resp = .parsed sc reason sugg
          ∧ (sc = none ∨ reason = none ∨ sugg = none)) :
    analyzeStock resp = defaultResult
    ∧ defaultResult.score = 0
    ∧ defaultResult.reason = "AI分析暂时不可用，请稍后重试"
    ∧ defaultResult.suggestion = "观望" := by
  refine ⟨?_, rfl, rfl, rfl⟩
  rcases h with rfl | ⟨sc, reason, sugg, rfl, hmiss⟩
  · rfl
  · rcases sc with _ | sc <;> rcases reason with _ | reason
      <;> rcases sugg with _ | sugg <;> simp_all [analyzeStock]

/-- C8 witness: a raising call and a response missing its score both produce
the default result. -/
theorem scoring_failure_default_witness :
    (ServiceResponse.failure = ServiceResponse.failure
      ∨ ∃ sc reason sugg,
          ServiceResponse.failure = ServiceResponse.parsed sc reason sugg
          ∧ (sc = none ∨ reason = none ∨ sugg = none))
    ∧ analyzeStock .failure = defaultResult
    ∧ analyzeStock (.parsed none (some "理由") (some "观望"))
        = defaultResult := by
  refine ⟨Or.inl rfl, (scoring_failure_default .failure (Or.inl rfl)).1, ?_⟩
  exact (scoring_failure_default (.parsed none (some "理由") (some "观望"))
    (Or.inr ⟨none, some "理由", some "观望", rfl, Or.inl rfl⟩)).1

/-! ## C9 — suggestion normalization is total -/

/-- C9: the suggestion of every `analyze_stock` result is one of the four
fixed values 强力买入 / 买入 / 观望 / 放弃, and any suggestion string outside
this set is mapped to the neutral 观望. -/
theorem suggestion_normalization_total (resp : ServiceResponse) :
    ((analyzeStock resp).suggestion = "强力买入"
      ∨ (analyzeStock resp).suggestion = "买入"
      ∨ (analyzeStock resp).suggestion = "观望"
      ∨ (analyzeStock resp).suggestion = "放弃")
    ∧ (∀ sc reason sugg,
        ¬(sugg = "强力买入" ∨ sugg = "买入" ∨ sugg = "观望" ∨ sugg = "放弃") →
        (analyzeStock (.parsed (some sc) (some reason)
            (some sugg))).suggestion = "观望") := by
  constructor
  · rcases resp with _ | ⟨sc, reason, sugg⟩
    · right; right; left; rfl
    · rcases sc with _ | sc <;> rcases reason with _ | reason
        <;> rcases sugg with _ | sugg
        <;> simp [analyzeStock, defaultResult]
      exact adjustSuggestion_mem _ _ (normalizeSuggestion_mem sugg)
  · intro sc reason sugg hbad
    have hnorm : normalizeSuggestion sugg = "观望" := by
      unfold normalizeSuggestion
      split_ifs <;> tauto
    simp only [analyzeStock, hnorm]
    unfold adjustSuggestion
    split_ifs <;> simp_all

/-- C9 witness: the unrecognized suggestion 继续观察 degrades to 观望. -/
theorem suggestion_normalization_total_witness :
    ¬("继续观察" = "强力买入" ∨ "继续观察" = "买入"
      ∨ "继续观察" = "观望" ∨ "继续观察" = "放弃")
    ∧ (analyzeStock (.parsed (some 80) (some "题材正宗")
        (some "继续观察"))).suggestion = "观望" := by
  refine ⟨by decide, ?_⟩
  exact (suggestion_normalization_total
    (.parsed (some 80) (some "题材正宗") (some "继续观察"))).2
    80 "题材正宗" "继续观察" (by decide)

/-! ## C10 — suggestion is adjusted for consistency with the score -/

/-- C10: after clamping, a score below 60 turns any buy-class suggestion
into 观望, a score of at least 90 upgrades a plain 买入 to 强力买入, and no
`analyze_stock` result ever pairs a buy-class suggestion with a score
below 60. -/
theorem score_suggestion_consistency (resp : ServiceResponse) (sc : ℤ)
    (reason sugg : String) :
    (clampScore sc < 60 →
      (normalizeSuggestion sugg = "强力买入"
        ∨ normalizeSuggestion sugg = "买入") →
      (analyzeStock (.parsed (some sc) (some reason)
          (some sugg))).suggestion = "观望")
    ∧ (90 ≤ clampScore sc → normalizeSuggestion sugg = "买入" →
      (analyzeStock (.parsed (some sc) (some reason)
          (some sugg))).suggestion = "强力买入")
    ∧ ((analyzeStock resp).score < 60 →
      (analyzeStock resp).suggestion ≠ "强力买入"
      ∧ (analyzeStock resp).suggestion ≠ "买入") := by
  refine ⟨?_, ?_, ?_⟩
  · intro hlt hbuy
    simp only [analyzeStock]
    unfold adjustSuggestion
    split_ifs with h1 h2
    · exact absurd h1.1 (by omega)
    · rfl
    · exact absurd ⟨hlt, hbuy⟩ h2
  · intro hge hbuy
    simp only [analyzeStock]
    unfold adjustSuggestion
    split_ifs with h1 h2
    · rfl
    · exact absurd h2.1 (by omega)
    · exact absurd ⟨hge, hbuy⟩ h1
  · intro hlt
    rcases resp with _ | ⟨sc', reason', sugg'⟩
    · exact ⟨by simp [analyzeStock, defaultResult],
        by simp [analyzeStock, defaultResult]⟩
    · rcases sc' with _ | sc'
      · exact ⟨by simp [analyzeStock, defaultResult],
          by simp [analyzeStock, defaultResult]⟩
      rcases reason' with _ | reason'
      · exact ⟨by simp [analyzeStock, defaultResult],
          by simp [analyzeStock, defaultResult]⟩
      rcases sugg' with _ | sugg'
      · exact ⟨by simp [analyzeStock, defaultResult],
          by simp [analyzeStock, defaultResult]⟩
      simp only [analyzeStock] at hlt ⊢
      unfold adjustSuggestion
      split_ifs with h1 h2
      · exact absurd h1.1 (by omega)
      · exact ⟨by simp, by simp⟩
      · have hmem := normalizeSuggestion_mem sugg'
        have hnb : ¬(normalizeSuggestion sugg' = "强力买入"
            ∨ normalizeSuggestion sugg' = "买入") := fun hb => h2 ⟨hlt, hb⟩
        rcases hmem with h | h | h | h
        · exact absurd (Or.inl h) hnb
        · exact absurd (Or.inr h) hnb
        · rw [h]
          exact ⟨by simp, by simp⟩
        · rw [h]
          exact ⟨by simp, by simp⟩

/-- C10 witness: score 40 downgrades 买入 to 观望; score 95 upgrades 买入
to 强力买入. -/
theorem score_suggestion_consistency_witness :
    clampScore 40 < 60
    ∧ normalizeSuggestion "买入" = "买入"
    ∧ (analyzeStock (.parsed (some 40) (some "缩量上涨")
        (some "买入"))).suggestion = "观望"
    ∧ 90 ≤ clampScore 95
    ∧ (analyzeStock (.parsed (some 95) (some "放量突破")
        (some "买入"))).suggestion = "强力买入" := by
  refine ⟨by decide, by decide, ?_, by decide, ?_⟩
  · exact (score_suggestion_consistency .failure 40 "缩量上涨" "买入").1
      (by decide) (Or.inr (by decide))
  · exact (score_suggestion_consistency .failure 95 "放量突破" "买入").2.1
      (by decide) (by decide)

/-! ## General lemmas about streak counting -/

/-- The SQL `COUNT(DISTINCT DATE(created_at))` of `check_streak` equals the
cardinality of the set of window days carrying a qualifying record. -/
theorem checkStreak_eq_streakSpec (rows : List StockAnalysisRow)
    (symbol : String) (threshold today days : ℤ) :
    checkStreak rows symbol threshold today days
      = streakSpec rows symbol threshold today days := by
  unfold checkStreak streakSpec
  rw [← List.card_toFinset]
  congr 1
  ext d
  simp only [List.mem_toFinset, List.mem_map, List.mem_filter,
    Finset.mem_filter, Finset.mem_Ico, List.any_eq_true,
    rowQualifies, Bool.and_eq_true, beq_iff_eq, decide_eq_true_eq]
  constructor
  · rintro ⟨r, ⟨hr, ⟨⟨⟨hsym, hscore⟩, hlo⟩, hhi⟩⟩, rfl⟩
    exact ⟨⟨hlo, hhi⟩, r, hr, ⟨hsym, hscore⟩, rfl⟩
  · rintro ⟨⟨hlo, hhi⟩, r, hr, ⟨hsym, hscore⟩, hd⟩
    exact ⟨r, ⟨hr, ⟨⟨⟨hsym, hscore⟩, hd ▸ hlo⟩, hd ▸ hhi⟩⟩, hd⟩

/-- Duplicating a stored record never changes the streak count. -/
theorem checkStreak_dup_row (rows : List StockAnalysisRow) (symbol : String)
    (threshold today days : ℤ) (r : StockAnalysisRow) :
    checkStreak (r :: r :: rows) symbol threshold today days
      = checkStreak (r :: rows) symbol threshold today days := by
  rw [checkStreak_eq_streakSpec, checkStreak_eq_streakSpec]
  unfold streakSpec
  congr 1
  apply Finset.filter_congr
  intro d _
  simp only [List.any_cons, ← Bool.or_assoc, Bool.or_self]

/-! ## C6 — streak counting is date-distinct -/

/-- C6: `check_streak` returns the number of distinct calendar dates in the
trailing window `[today − days, today)` on which the symbol has at least one
stored record with score ≥ threshold, and adding a second copy of a record
(a second qualifying row on the same calendar day) never changes the
count. -/
theorem streak_counts_distinct_days (rows : List StockAnalysisRow)
    (symbol : String) (threshold today days : ℤ) (r : StockAnalysisRow) :
    checkStreak rows symbol threshold today days
      = streakSpec rows symbol threshold today days
    ∧ checkStreak (r :: r :: rows) symbol threshold today days
      = checkStreak (r :: rows) symbol threshold today days :=
  ⟨checkStreak_eq_streakSpec rows symbol threshold today days,
   checkStreak_dup_row rows symbol threshold today days r⟩

/-! ## General lemma for the breakout scan -/

/-- The limit step of `scan_volume_breakout` is exactly a prefix of the
sorted qualifying list. -/
theorem scanVolumeBreakout_eq_take (df : List MarketRow) (limit : ℕ) :
    scanVolumeBreakout df limit
      = (List.insertionSort turnoverGE (df.filter breakoutMask)).take
          limit := by
  unfold scanVolumeBreakout
  dsimp only
  split_ifs with h
  · rfl
  · exact (List.take_of_length_le (by omega)).symm

/-! ## C7 — the breakout scan filters, sorts by turnover, then truncates -/

/-- C7: every row returned by `scan_volume_breakout` satisfies
change ∈ [5,8], turnover ∈ [7,15], circulating market value ∈ [10e8,200e8]
and price ∈ [5,2000]; the output is sorted by turnover descending and has at
most `limit` rows; and it extends, by some remainder of weakly smaller
turnover, to a permutation of all qualifying rows — the rows kept are those
of highest turnover. -/
theorem breakout_scan_ranked (df : List MarketRow) (limit : ℕ) :
    (∀ r ∈ scanVolumeBreakout df limit,
        5 ≤ r.change_pct ∧ r.change_pct ≤ 8
        ∧ 7 ≤ r.turnover ∧ r.turnover ≤ 15
        ∧ (10 * 10 ^ 8 : ℚ) ≤ r.circ_mv ∧ r.circ_mv ≤ (200 * 10 ^ 8 : ℚ)
        ∧ 5 ≤ r.price ∧ r.price ≤ 2000)
    ∧ (scanVolumeBreakout df limit).Sorted turnoverGE
    ∧ (scanVolumeBreakout df limit).length ≤ limit
    ∧ ∃ rest, (scanVolumeBreakout df limit ++ rest).Perm
          (df.filter breakoutMask)
        ∧ ∀ a ∈ scanVolumeBreakout df limit, ∀ b ∈ rest,
            b.turnover ≤ a.turnover := by
  set sorted := List.insertionSort turnoverGE (df.filter breakoutMask)
    with hsorted
  have heq := scanVolumeBreakout_eq_take df limit
  have hsort : sorted.Sorted turnoverGE :=
    List.sorted_insertionSort turnoverGE (df.filter breakoutMask)
  have hperm : sorted.Perm (df.filter breakoutMask) :=
    List.perm_insertionSort turnoverGE (df.filter breakoutMask)
  refine ⟨?_, ?_, ?_, ?_⟩
  · intro r hr
    rw [heq] at hr
    have hmem : r ∈ df.filter breakoutMask :=
      hperm.mem_iff.mp ((List.take_sublist _ _).mem hr)
    have hmask : breakoutMask r = true := (List.mem_filter.mp hmem).2
    simpa [breakoutMask, Bool.and_eq_true, decide_eq_true_eq, and_assoc]
      using hmask
  · rw [heq]
    exact hsort.sublist (List.take_sublist _ _)
  · rw [heq]
    exact List.length_take_le _ _
  · refine ⟨sorted.drop limit, ?_, ?_⟩
    · rw [heq, List.take_append_drop]
      exact hperm
    · intro a ha b hb
      rw [heq] at ha
      have hpw : sorted.Pairwise turnoverGE := hsort
      rw [← List.take_append_drop limit sorted, List.pairwise_append] at hpw
      exact hpw.2.2 a ha b hb

/-- C7 witness: the spec scenario row (change 6, turnover 10, market value
50e8, price 20) is kept by the scan and satisfies every bound. -/
theorem breakout_scan_ranked_witness :
    sampleRow ∈ scanVolumeBreakout [sampleRow] 10
    ∧ (5 ≤ sampleRow.change_pct ∧ sampleRow.change_pct ≤ 8
        ∧ 7 ≤ sampleRow.turnover ∧ sampleRow.turnover ≤ 15
        ∧ (10 * 10 ^ 8 : ℚ) ≤ sampleRow.circ_mv
        ∧ sampleRow.circ_mv ≤ (200 * 10 ^ 8 : ℚ)
        ∧ 5 ≤ sampleRow.price ∧ sampleRow.price ≤ 2000) := by
  have hmask : breakoutMask sampleRow = true := by
    simp only [breakoutMask, sampleRow]
    norm_num
  have hmem : sampleRow ∈ scanVolumeBreakout [sampleRow] 10 := by
    simp [scanVolumeBreakout, hmask, List.insertionSort]
  exact ⟨hmem, (breakout_scan_ranked [sampleRow] 10).1 sampleRow hmem⟩

end Sentinel
